import Mathlib

/-!
Verification of the concurrent task server in
`Laboratorios/Laboratorio 4/servidor_concurrente.py`.

Strings are modelled as `List Char` (`Str`), with the Python string
operations the program uses (`startswith`, `strip`, `replace(p, "")`,
`split(sep, 1)`, `split()`, `isdigit`, `int(...)`, `str(...)`) embedded as
executable Lean functions restricted to ASCII content.

Files are modelled as the `DB` record: each ledger file is the list of
lines appended to it (each `f.write` of one `...\n` chunk under the
file's dedicated lock is one list element, stored without the trailing
newline), and the counter file `largo.txt` is its raw content, `none`
when the file does not exist.

The external sympy evaluator (`integrate`/`diff`, together with the
f-string rendering of its result) is an opaque parameter of type
`Str → ResultadoEval`: it either returns the rendered result string or
raises.

Every storage access in `procesar_tarea` happens under a dedicated lock
(`lock_integrales`, `lock_derivadas`, `lock_tesis`, `lock_largo`), and
the whole read-modify-write of `largo.txt` is under the single
`lock_largo` acquisition, so each of these operations is atomic with
respect to the other threads.  A run of `procesar_tareas` (one thread
per task, joined at the end) is therefore modelled as a sequential fold
of `procesar_tarea` over an arbitrary completion order `orden`, an
arbitrary permutation of the submitted list; the semaphore capacity
`max_hilos` only bounds concurrency and cannot change the final stored
state, which the model reflects by taking it as an unused parameter.
-/

namespace ServidorConcurrente

/-- Python strings, modelled as lists of characters. -/
abbrev Str := List Char

/-- Python's `s.startswith(p)`: `startswith p s` is true when `p` is an
initial segment of `s`. -/
def startswith : Str → Str → Bool
  | [], _ => true
  | _ :: _, [] => false
  | p :: ps, c :: cs => p == c && startswith ps cs

/-- Whitespace characters stripped by Python's `str.strip()` (ASCII part). -/
def esEspacio (c : Char) : Bool :=
  decide (c.toNat = 32 ∨ c.toNat = 9 ∨ c.toNat = 10 ∨ c.toNat = 13 ∨
          c.toNat = 11 ∨ c.toNat = 12)

/-- Python's `s.strip()`: drop leading and trailing whitespace. -/
def strip (s : Str) : Str :=
  ((s.dropWhile esEspacio).reverse.dropWhile esEspacio).reverse

/-- Fueled worker for `removeAll`; the fuel starts at the length of the
string, which is enough because every step consumes at least one
character of the remaining string. -/
def removeAllAux : Nat → Str → Str → Str
  | 0, _, s => s
  | fuel + 1, pat, s =>
    match s with
    | [] => []
    | c :: cs =>
      if startswith pat (c :: cs) then
        removeAllAux fuel pat (List.drop pat.length (c :: cs))
      else
        c :: removeAllAux fuel pat cs

/-- Python's `s.replace(pat, "")`: delete every non-overlapping
occurrence of `pat`, scanning left to right. -/
def removeAll (pat s : Str) : Str := removeAllAux s.length pat s

/-- Python's `s.split(sep, 1)` restricted to what the program uses:
`splitFirst sep s = some (a, b)` when `s = a ++ sep ++ b` with `a` not
containing `sep`, and `none` when `sep` does not occur in `s` (which is
also the `sep in s` containment test). -/
def splitFirst (sep : Str) : Str → Option (Str × Str)
  | [] => if startswith sep [] then some ([], []) else none
  | c :: cs =>
    if startswith sep (c :: cs) then some ([], List.drop sep.length (c :: cs))
    else
      match splitFirst sep cs with
      | none => none
      | some pr => some (c :: pr.1, pr.2)

/-- Worker for `wordCount`: the Bool records whether the previous
character belonged to a word. -/
def wordCountAux : Str → Bool → Nat
  | [], _ => 0
  | c :: cs, dentro =>
    if esEspacio c then wordCountAux cs false
    else (if dentro then 0 else 1) + wordCountAux cs true

/-- Python's `len(s.split())`: number of maximal runs of non-whitespace. -/
def wordCount (s : Str) : Nat := wordCountAux s false

/-- ASCII digit test, as used by Python's `str.isdigit` on ASCII content. -/
def esDigito (c : Char) : Bool := decide (48 ≤ c.toNat ∧ c.toNat ≤ 57)

/-- Python's `s.isdigit()` on ASCII content: nonempty and all digits. -/
def esNumerica (s : Str) : Bool := !s.isEmpty && s.all esDigito

/-- Python's `int(s)` on a digit string: decimal value. -/
def valorNat (s : Str) : Nat := s.foldl (fun a c => 10 * a + (c.toNat - 48)) 0

/-- Decimal digit `d` (`d < 10`) as a character. -/
def digitoChar (d : Nat) : Char := Char.ofNat (48 + d)

/-- Fueled worker for `natToStr`: peels decimal digits from the right.
The fuel starts at `n`, which suffices since `n / 10 < n` for `n ≠ 0`. -/
def natToStrAux : Nat → Nat → Str → Str
  | 0, _, acc => acc
  | fuel + 1, n, acc =>
    if n = 0 then acc
    else natToStrAux fuel (n / 10) (digitoChar (n % 10) :: acc)

/-- Python's `str(n)` for a natural number: decimal representation. -/
def natToStr (n : Nat) : Str :=
  if n = 0 then [digitoChar 0] else natToStrAux n n []

/-- Categories of the dispatch in `procesar_tarea` (the task classifier
of the spec). -/
inductive Categoria
  | integral
  | derivada
  | tesis
  | noReconocida
deriving DecidableEq

/-- Result of one call to the external sympy evaluator (`integrate` or
`diff` plus rendering): the rendered result string, or a raised
exception carrying a message. -/
inductive ResultadoEval
  | ok (valor : Str)
  | falla (msg : Str)

/-- The four storage resources of `BaseDeDatos`: the three ledgers as
lists of appended lines, and the raw content of `largo.txt` (`none`
when the file does not exist). -/
structure DB where
  integrales : List Str
  derivadas : List Str
  tesis : List Str
  largo : Option Str
deriving DecidableEq

/-- Observable events of one `procesar_tarea` execution, in program
order: semaphore acquire/release, timer start, each guarded file write,
and the two logging calls. -/
inductive Evento
  | adquiere
  | libera
  | cronometro
  | escribeInt
  | escribeDer
  | escribeTes
  | escribeLargo
  | logErr
  | logFin
deriving DecidableEq

/-- Result of the `try:` block of `procesar_tarea`: normal completion,
or a raised exception (message attached), with the storage state and
the events produced up to that point. -/
inductive Cuerpo
  | normal (bd : DB) (evs : List Evento)
  | lanza (bd : DB) (evs : List Evento) (msg : Str)
deriving DecidableEq

def pIntegral : Str := ("integral:").toList
def pDerivada : Str := ("derivada:").toList
def pTesis : Str := ("tesis:").toList
def sepPuntoComa : Str := (";").toList
def sinTitulo : Str := ("Sin titulo").toList

/-- The expression the integral branch evaluates:
`tarea.replace("integral:", "").strip()`. -/
def exprIntegral (tarea : Str) : Str := strip (removeAll pIntegral tarea)

/-- The expression the derivative branch evaluates:
`tarea.replace("derivada:", "").strip()`. -/
def exprDerivada (tarea : Str) : Str := strip (removeAll pDerivada tarea)

/-- The line the integral branch appends:
`f"Integral de {expr} = {resultado}"`. -/
def lineaIntegralStr (expr res : Str) : Str :=
  ("Integral de ").toList ++ expr ++ (" = ").toList ++ res

/-- The line the derivative branch appends:
`f"Derivada de {expr} = {resultado}"`. -/
def lineaDerivadaStr (expr res : Str) : Str :=
  ("Derivada de ").toList ++ expr ++ (" = ").toList ++ res

/-- The line the thesis branch appends:
`f"Tesis: {titulo} -- {texto}"`. -/
def lineaTesisStr (titulo texto : Str) : Str :=
  ("Tesis: ").toList ++ titulo ++ (" -- ").toList ++ texto

/-- Title/body computation of the thesis branch: split `resto` at the
first `";"` and strip both parts, or default title with the whole
remainder (stripped) as body. -/
def tituloTexto (resto : Str) : Str × Str :=
  match splitFirst sepPuntoComa resto with
  | some pr => (strip pr.1, strip pr.2)
  | none => (sinTitulo, strip resto)

/-- The read side of the counter update in `procesar_tarea`: read
`largo.txt` (a missing file reads as zero via the
`except FileNotFoundError` arm), strip, and parse when `isdigit`, else
zero. -/
def leerLargo (contenido : Option Str) : Nat :=
  match contenido with
  | none => 0
  | some s =>
    let c := strip s
    if esNumerica c then valorNat c else 0

/-- The whole `with bd.lock_largo:` block of `procesar_tarea`: read the
current value, add the word count, overwrite the file with the decimal
rendering of the new total. -/
def actualizarLargo (contenido : Option Str) (palabras : Nat) : Option Str :=
  some (natToStr (leerLargo contenido + palabras))

/-- One file's share of `BaseDeDatos.crear_archivos`: create the file
empty when it does not exist, leave it untouched otherwise. -/
def crearArchivoSiFalta (contenido : Option Str) : Option Str :=
  match contenido with
  | none => some []
  | some s => some s

/-- The `try:` block of `procesar_tarea`: the prefix dispatch, the
evaluator calls, the guarded appends and the counter update. -/
def cuerpo (eInt eDer : Str → ResultadoEval) (bd : DB) (tarea : Str) : Cuerpo :=
  if startswith pIntegral tarea then
    match eInt (exprIntegral tarea) with
    | .falla m => .lanza bd [] m
    | .ok res =>
      .normal
        { bd with integrales :=
            bd.integrales ++ [lineaIntegralStr (exprIntegral tarea) res] }
        [Evento.escribeInt]
  else if startswith pDerivada tarea then
    match eDer (exprDerivada tarea) with
    | .falla m => .lanza bd [] m
    | .ok res =>
      .normal
        { bd with derivadas :=
            bd.derivadas ++ [lineaDerivadaStr (exprDerivada tarea) res] }
        [Evento.escribeDer]
  else if startswith pTesis tarea then
    match splitFirst pTesis tarea with
    | none => .lanza bd [] (("ValueError").toList)
    | some pr =>
      let tt := tituloTexto pr.2
      .normal
        { bd with
            tesis := bd.tesis ++ [lineaTesisStr tt.1 tt.2],
            largo := actualizarLargo bd.largo (wordCount tt.2) }
        [Evento.escribeTes, Evento.escribeLargo]
  else
    .normal bd [Evento.logErr]

/-- The whole of `procesar_tarea`: semaphore acquisition (`with
bd.semaforo`), timer start, the `try:` body, the `except Exception`
arm turning any raised error into a `logging.error` call, the
`finally:` completion log, and the semaphore release on exiting the
`with` block.  The function is total: no exception reaches the caller. -/
def procesar_tarea (eInt eDer : Str → ResultadoEval) (bd : DB) (tarea : Str) :
    DB × List Evento :=
  match cuerpo eInt eDer bd tarea with
  | .normal bd2 evs =>
    (bd2, Evento.adquiere :: Evento.cronometro :: evs ++
          [Evento.logFin, Evento.libera])
  | .lanza bd2 evs _ =>
    (bd2, Evento.adquiere :: Evento.cronometro :: evs ++
          [Evento.logErr, Evento.logFin, Evento.libera])

/-- The batch `procesar_tareas`: one thread per task, all joined before
returning.  `orden` is the completion order actually realised by the
scheduler (any permutation of the submitted list); the semaphore
capacity `max_hilos` is carried but cannot influence the final stored
state. -/
def procesar_tareas (eInt eDer : Str → ResultadoEval) (_maxHilos : Nat)
    (bd : DB) (orden : List Str) : DB :=
  orden.foldl (fun b t => (procesar_tarea eInt eDer b t).1) bd

/-- The classification view of the dispatch in `procesar_tarea`: which
branch a raw task string selects and the payload that branch computes. -/
def clasificar (tarea : Str) : Categoria × Str :=
  if startswith pIntegral tarea then (Categoria.integral, exprIntegral tarea)
  else if startswith pDerivada tarea then (Categoria.derivada, exprDerivada tarea)
  else if startswith pTesis tarea then
    (Categoria.tesis,
      match splitFirst pTesis tarea with
      | some pr => pr.2
      | none => [])
  else (Categoria.noReconocida, tarea)

/-- The rendered result string of an evaluator call, empty on failure. -/
def resultadoDe : ResultadoEval → Str
  | .ok v => v
  | .falla _ => []

/-- A task whose integral branch runs and whose evaluation succeeds. -/
def esExitoInt (eInt : Str → ResultadoEval) (t : Str) : Bool :=
  startswith pIntegral t &&
    match eInt (exprIntegral t) with
    | .ok _ => true
    | .falla _ => false

/-- A task whose derivative branch runs and whose evaluation succeeds. -/
def esExitoDer (eDer : Str → ResultadoEval) (t : Str) : Bool :=
  startswith pDerivada t &&
    match eDer (exprDerivada t) with
    | .ok _ => true
    | .falla _ => false

/-- A thesis task: the raw string starts with `"tesis:"`. -/
def esTesis (t : Str) : Bool := startswith pTesis t

/-- The ledger line a successful integral task appends. -/
def lineaIntegralDe (eInt : Str → ResultadoEval) (t : Str) : Str :=
  lineaIntegralStr (exprIntegral t) (resultadoDe (eInt (exprIntegral t)))

/-- The ledger line a successful derivative task appends. -/
def lineaDerivadaDe (eDer : Str → ResultadoEval) (t : Str) : Str :=
  lineaDerivadaStr (exprDerivada t) (resultadoDe (eDer (exprDerivada t)))

/-- The ledger line a thesis task appends (its remainder is the part of
the raw string after the 6-character prefix `"tesis:"`). -/
def lineaTesisDe (t : Str) : Str :=
  lineaTesisStr (tituloTexto (List.drop 6 t)).1 (tituloTexto (List.drop 6 t)).2

/-- The word count of the body of a thesis task. -/
def palabrasDeTesis (t : Str) : Nat := wordCount (tituloTexto (List.drop 6 t)).2

/-- Counter increment contributed by one task: the body word count for
a thesis task, zero otherwise. -/
def deltaTesis (t : Str) : Nat := if esTesis t then palabrasDeTesis t else 0

/-- Events of a `Cuerpo` result. -/
def evsDe : Cuerpo → List Evento
  | .normal _ evs => evs
  | .lanza _ evs _ => evs

/-- Storage state of a `Cuerpo` result. -/
def bdDe : Cuerpo → DB
  | .normal bd _ => bd
  | .lanza bd _ _ => bd

/-- Number of occurrences of an event in a trace. -/
def cuenta (e : Evento) : List Evento → Nat
  | [] => 0
  | x :: xs => (if x = e then 1 else 0) + cuenta e xs

/-- Spec-side denotation, written from the spec's words and not from the
code, for the refinement comparison of the counter read: a string
denotes a decimal integer when it is an optional minus sign followed by
digits, and then denotes that integer. -/
def valorDecimalSpec (s : Str) : Option Int :=
  match s with
  | [] => none
  | c :: ds =>
    if c = ('-') then
      (if esNumerica ds then some (-(valorNat ds : Int)) else none)
    else if esNumerica s then some ((valorNat s : Int)) else none

/-- The storage state right after `BaseDeDatos.crear_archivos` on a
fresh directory: four existing empty files. -/
def dbVacia : DB := { integrales := [], derivadas := [], tesis := [], largo := some [] }

/-- An evaluator that echoes the expression back as the result. -/
def evalEco : Str → ResultadoEval := fun e => ResultadoEval.ok e

/-- An evaluator that raises on every input. -/
def evalFallaSiempre : Str → ResultadoEval := fun _ => ResultadoEval.falla (("boom").toList)

/-! Helper lemmas: decimal rendering and parsing. -/

theorem natToStrAux_append (fuel : Nat) : ∀ (n : Nat) (acc : Str),
    natToStrAux fuel n acc = natToStrAux fuel n [] ++ acc := by
  induction fuel with
  | zero => intro n acc; simp [natToStrAux]
  | succ f ih =>
    intro n acc
    by_cases h : n = 0
    · simp [natToStrAux, h]
    · simp only [natToStrAux, if_neg h]
      rw [ih (n / 10) (digitoChar (n % 10) :: acc), ih (n / 10) [digitoChar (n % 10)]]
      simp

theorem natToStrAux_fuel (f1 : Nat) : ∀ (f2 n : Nat) (acc : Str), n ≤ f1 → n ≤ f2 →
    natToStrAux f1 n acc = natToStrAux f2 n acc := by
  induction f1 with
  | zero =>
    intro f2 n acc h1 _
    have hn : n = 0 := Nat.le_zero.mp h1
    subst hn
    cases f2 <;> simp [natToStrAux]
  | succ f ih =>
    intro f2 n acc h1 h2
    by_cases hn : n = 0
    · subst hn; cases f2 <;> simp [natToStrAux]
    · obtain ⟨f2l, rfl⟩ : ∃ k, f2 = k + 1 := by
        cases f2 with
        | zero => omega
        | succ k => exact ⟨k, rfl⟩
      simp only [natToStrAux, if_neg hn]
      have hd : n / 10 < n := Nat.div_lt_self (Nat.pos_of_ne_zero hn) (by omega)
      exact ih f2l (n / 10) _ (by omega) (by omega)

theorem toNat_digitoChar {d : Nat} (h : d < 10) : (digitoChar d).toNat = 48 + d := by
  interval_cases d <;> decide

theorem esDigito_digitoChar {d : Nat} (h : d < 10) : esDigito (digitoChar d) = true := by
  interval_cases d <;> decide

theorem natToStrAux_digits (fuel : Nat) : ∀ (n : Nat) (acc : Str),
    (∀ c ∈ acc, esDigito c = true) →
    ∀ c ∈ natToStrAux fuel n acc, esDigito c = true := by
  induction fuel with
  | zero => intro n acc hacc; simpa [natToStrAux] using hacc
  | succ f ih =>
    intro n acc hacc
    by_cases hn : n = 0
    · simpa [natToStrAux, hn] using hacc
    · simp only [natToStrAux, if_neg hn]
      apply ih
      intro c hc
      rcases List.mem_cons.mp hc with rfl | hmem
      · exact esDigito_digitoChar (Nat.mod_lt _ (by omega))
      · exact hacc c hmem

theorem foldl_natToStrAux (fuel : Nat) : ∀ (n a : Nat), n ≤ fuel →
    List.foldl (fun a c => 10 * a + (c.toNat - 48)) a (natToStrAux fuel n []) =
      a * 10 ^ (natToStrAux fuel n []).length + n := by
  induction fuel with
  | zero =>
    intro n a h
    have hn : n = 0 := by omega
    subst hn
    simp [natToStrAux]
  | succ f ih =>
    intro n a h
    by_cases hn : n = 0
    · subst hn; simp [natToStrAux]
    · have hstep : natToStrAux (f + 1) n [] =
          natToStrAux f (n / 10) [] ++ [digitoChar (n % 10)] := by
        simp only [natToStrAux, if_neg hn]
        exact natToStrAux_append f (n / 10) [digitoChar (n % 10)]
      have hdiv : n / 10 ≤ f := by
        have : n / 10 < n := Nat.div_lt_self (Nat.pos_of_ne_zero hn) (by omega)
        omega
      rw [hstep, List.foldl_append, ih (n / 10) a hdiv]
      simp only [List.foldl_cons, List.foldl_nil, List.length_append,
        List.length_singleton]
      rw [toNat_digitoChar (Nat.mod_lt _ (by omega))]
      have hpow : a * 10 ^ ((natToStrAux f (n / 10) []).length + 1) =
          (a * 10 ^ (natToStrAux f (n / 10) []).length) * 10 := by ring
      rw [hpow]
      omega

theorem valorNat_natToStr (n : Nat) : valorNat (natToStr n) = n := by
  by_cases hn : n = 0
  · subst hn; decide
  · unfold natToStr valorNat
    rw [if_neg hn]
    have h := foldl_natToStrAux n n 0 (le_refl n)
    simpa using h

theorem natToStr_digits (n : Nat) : ∀ c ∈ natToStr n, esDigito c = true := by
  unfold natToStr
  by_cases hn : n = 0
  · intro c hc
    simp [hn] at hc
    subst hc
    decide
  · rw [if_neg hn]
    exact natToStrAux_digits n n [] (by simp)

theorem natToStr_ne_nil (n : Nat) : natToStr n ≠ [] := by
  unfold natToStr
  by_cases hn : n = 0
  · simp [hn]
  · rw [if_neg hn]
    obtain ⟨f, rfl⟩ : ∃ f, n = f + 1 := ⟨n - 1, by omega⟩
    simp only [natToStrAux, if_neg hn]
    rw [natToStrAux_append]
    simp

theorem esEspacio_of_esDigito {c : Char} (h : esDigito c = true) : esEspacio c = false := by
  simp only [esDigito, decide_eq_true_eq] at h
  simp only [esEspacio, decide_eq_false_iff_not]
  omega

theorem dropWhile_esEspacio_digits (s : Str) (h : ∀ c ∈ s, esDigito c = true) :
    s.dropWhile esEspacio = s := by
  cases s with
  | nil => rfl
  | cons c cs =>
    rw [List.dropWhile_cons]
    rw [esEspacio_of_esDigito (h c (List.mem_cons_self c cs))]
    simp

theorem strip_digits {s : Str} (h : ∀ c ∈ s, esDigito c = true) : strip s = s := by
  unfold strip
  rw [dropWhile_esEspacio_digits s h]
  rw [dropWhile_esEspacio_digits s.reverse
    (fun c hc => h c (List.mem_reverse.mp hc))]
  exact List.reverse_reverse s

theorem esNumerica_natToStr (n : Nat) : esNumerica (natToStr n) = true := by
  unfold esNumerica
  have h1 : (natToStr n).isEmpty = false := by
    cases hs : natToStr n with
    | nil => exact absurd hs (natToStr_ne_nil n)
    | cons c cs => rfl
  rw [h1]
  simp only [Bool.not_false, Bool.true_and, List.all_eq_true]
  exact natToStr_digits n

theorem leerLargo_natToStr (n : Nat) : leerLargo (some (natToStr n)) = n := by
  simp only [leerLargo, strip_digits (natToStr_digits n), esNumerica_natToStr,
    if_true]
  exact valorNat_natToStr n

theorem leerLargo_actualizar (o : Option Str) (w : Nat) :
    leerLargo (actualizarLargo o w) = leerLargo o + w := by
  unfold actualizarLargo
  exact leerLargo_natToStr _

/-! Helper lemmas: prefixes and first-occurrence split. -/

theorem startswith_head? {sep t : Str} {a : Char} (hsep : sep.head? = some a)
    (h : startswith sep t = true) : t.head? = some a := by
  cases sep with
  | nil => simp at hsep
  | cons x xs =>
    cases t with
    | nil => simp [startswith] at h
    | cons c cs =>
      simp only [startswith, Bool.and_eq_true, beq_iff_eq] at h
      simp only [List.head?_cons, Option.some.injEq] at hsep
      simp [← h.1, hsep]

theorem exclusion_startswith {s1 s2 t : Str} {a b : Char}
    (h1 : s1.head? = some a) (h2 : s2.head? = some b) (hab : a ≠ b)
    (h : startswith s1 t = true) : startswith s2 t = false := by
  by_contra hcon
  rw [Bool.not_eq_false] at hcon
  have ha := startswith_head? h1 h
  have hb := startswith_head? h2 hcon
  rw [ha] at hb
  exact hab (Option.some.inj hb)

theorem splitFirst_startswith {sep s : Str} (h : startswith sep s = true) :
    splitFirst sep s = some ([], List.drop sep.length s) := by
  cases s with
  | nil => simp [splitFirst, h]
  | cons c cs => simp [splitFirst, h]

/-! Helper lemmas: one execution of `procesar_tarea`. -/

theorem paso (eInt eDer : Str → ResultadoEval) (bd : DB) (t : Str) :
    (procesar_tarea eInt eDer bd t).1.integrales =
        bd.integrales ++ (if esExitoInt eInt t then [lineaIntegralDe eInt t] else []) ∧
    (procesar_tarea eInt eDer bd t).1.derivadas =
        bd.derivadas ++ (if esExitoDer eDer t then [lineaDerivadaDe eDer t] else []) ∧
    (procesar_tarea eInt eDer bd t).1.tesis =
        bd.tesis ++ (if esTesis t then [lineaTesisDe t] else []) ∧
    (procesar_tarea eInt eDer bd t).1.largo =
        (if esTesis t then actualizarLargo bd.largo (palabrasDeTesis t)
         else bd.largo) := by
  cases hI : startswith pIntegral t with
  | true =>
    have hD : startswith pDerivada t = false :=
      @exclusion_startswith pIntegral pDerivada t ('i') ('d') rfl rfl
        (by decide) hI
    have hT : startswith pTesis t = false :=
      @exclusion_startswith pIntegral pTesis t ('i') ('t') rfl rfl
        (by decide) hI
    cases heI : eInt (exprIntegral t) with
    | ok res =>
      simp [procesar_tarea, cuerpo, hI, heI, esExitoInt, esExitoDer, esTesis,
        hD, hT, lineaIntegralDe, resultadoDe]
    | falla m =>
      simp [procesar_tarea, cuerpo, hI, heI, esExitoInt, esExitoDer, esTesis,
        hD, hT]
  | false =>
    cases hD : startswith pDerivada t with
    | true =>
      have hT : startswith pTesis t = false :=
        @exclusion_startswith pDerivada pTesis t ('d') ('t') rfl rfl
          (by decide) hD
      cases heD : eDer (exprDerivada t) with
      | ok res =>
        simp [procesar_tarea, cuerpo, hI, hD, heD, esExitoInt, esExitoDer,
          esTesis, hT, lineaDerivadaDe, resultadoDe]
      | falla m =>
        simp [procesar_tarea, cuerpo, hI, hD, heD, esExitoInt, esExitoDer,
          esTesis, hT]
    | false =>
      cases hT : startswith pTesis t with
      | true =>
        have hsp := splitFirst_startswith hT
        have hlen : pTesis.length = 6 := rfl
        rw [hlen] at hsp
        simp [procesar_tarea, cuerpo, hI, hD, hT, hsp, esExitoInt, esExitoDer,
          esTesis, lineaTesisDe, palabrasDeTesis]
      | false =>
        simp [procesar_tarea, cuerpo, hI, hD, hT, esExitoInt, esExitoDer,
          esTesis]

/-! Helper lemmas: the batch fold. -/

theorem lote (eInt eDer : Str → ResultadoEval) (orden : List Str) :
    ∀ bd : DB,
    ((orden.foldl (fun b t => (procesar_tarea eInt eDer b t).1) bd).integrales =
        bd.integrales ++ (orden.filter (esExitoInt eInt)).map (lineaIntegralDe eInt)) ∧
    ((orden.foldl (fun b t => (procesar_tarea eInt eDer b t).1) bd).derivadas =
        bd.derivadas ++ (orden.filter (esExitoDer eDer)).map (lineaDerivadaDe eDer)) ∧
    ((orden.foldl (fun b t => (procesar_tarea eInt eDer b t).1) bd).tesis =
        bd.tesis ++ (orden.filter esTesis).map lineaTesisDe) ∧
    (leerLargo (orden.foldl (fun b t => (procesar_tarea eInt eDer b t).1) bd).largo =
        leerLargo bd.largo + (orden.map deltaTesis).sum) := by
  induction orden with
  | nil => intro bd; simp
  | cons t ts ih =>
    intro bd
    obtain ⟨h1, h2, h3, h4⟩ := paso eInt eDer bd t
    obtain ⟨g1, g2, g3, g4⟩ := ih ((procesar_tarea eInt eDer bd t).1)
    refine ⟨?_, ?_, ?_, ?_⟩
    · rw [List.foldl_cons, g1, h1, List.filter_cons]
      cases hf : esExitoInt eInt t <;> simp [hf]
    · rw [List.foldl_cons, g2, h2, List.filter_cons]
      cases hf : esExitoDer eDer t <;> simp [hf]
    · rw [List.foldl_cons, g3, h3, List.filter_cons]
      cases hf : esTesis t <;> simp [hf]
    · rw [List.foldl_cons, g4, h4]
      cases hf : esTesis t with
      | true =>
        simp only [hf, if_true, leerLargo_actualizar, List.map_cons,
          List.sum_cons, deltaTesis]
        omega
      | false =>
        simp only [hf, List.map_cons, List.sum_cons, deltaTesis]
        simp

/-! Helper lemmas: event traces. -/

theorem cuenta_append (e : Evento) (l1 l2 : List Evento) :
    cuenta e (l1 ++ l2) = cuenta e l1 + cuenta e l2 := by
  induction l1 with
  | nil => simp [cuenta]
  | cons x xs ih => simp [cuenta, ih]; omega

theorem evs_cuerpo (eInt eDer : Str → ResultadoEval) (bd : DB) (t : Str) :
    cuenta Evento.adquiere (evsDe (cuerpo eInt eDer bd t)) = 0 ∧
    cuenta Evento.libera (evsDe (cuerpo eInt eDer bd t)) = 0 ∧
    cuenta Evento.logFin (evsDe (cuerpo eInt eDer bd t)) = 0 ∧
    cuenta Evento.cronometro (evsDe (cuerpo eInt eDer bd t)) = 0 := by
  cases hI : startswith pIntegral t with
  | true =>
    cases heI : eInt (exprIntegral t) <;>
      simp [cuerpo, hI, heI, evsDe, cuenta]
  | false =>
    cases hD : startswith pDerivada t with
    | true =>
      cases heD : eDer (exprDerivada t) <;>
        simp [cuerpo, hI, hD, heD, evsDe, cuenta]
    | false =>
      cases hT : startswith pTesis t with
      | true =>
        cases hsp : splitFirst pTesis t <;>
          simp [cuerpo, hI, hD, hT, hsp, evsDe, cuenta]
      | false => simp [cuerpo, hI, hD, hT, evsDe, cuenta]

theorem map_delta_de_tesis (l : List Str)
    (h : ∀ t ∈ l, startswith pTesis t = true) :
    l.map deltaTesis = l.map palabrasDeTesis := by
  induction l with
  | nil => rfl
  | cons t ts ih =>
    simp only [List.map_cons]
    have hh : deltaTesis t = palabrasDeTesis t := by
      simp [deltaTesis, esTesis, h t (List.mem_cons_self t ts)]
    rw [hh, ih (fun x hx => h x (List.mem_cons_of_mem t hx))]

/-! The claims. -/

/-- C1: for every initial persisted counter value `C` and every batch of
thesis tasks with body word counts `w₁ … wₜ`, after `procesar_tareas`
completes in any completion order (`orden`, an arbitrary permutation of
the batch) and under any semaphore capacity, the counter stored in
`largo.txt` reads `C + Σ wᵢ`. -/
theorem c1_contador_exacto (eInt eDer : Str → ResultadoEval) (maxHilos : Nat)
    (bd : DB) (C : Nat) (tareas orden : List Str)
    (hperm : tareas.Perm orden)
    (hC : leerLargo bd.largo = C)
    (htesis : ∀ t ∈ tareas, startswith pTesis t = true) :
    leerLargo (procesar_tareas eInt eDer maxHilos bd orden).largo =
      C + (tareas.map palabrasDeTesis).sum := by
  have h := (lote eInt eDer orden bd).2.2.2
  unfold procesar_tareas
  rw [h, hC]
  congr 1
  have hsum : (orden.map deltaTesis).sum = (tareas.map deltaTesis).sum :=
    ((hperm.map deltaTesis).sum_eq).symm
  rw [hsum, map_delta_de_tesis tareas htesis]

/-- Witness for C1: a singleton thesis batch of two words, starting
from the counter reading 0, ends with the counter reading its sum. -/
theorem c1_contador_exacto_testigo :
    leerLargo (procesar_tareas evalEco evalEco 3 dbVacia
        [(("tesis:hola mundo").toList)]).largo =
      0 + ([(("tesis:hola mundo").toList)].map palabrasDeTesis).sum :=
  c1_contador_exacto evalEco evalEco 3 dbVacia 0
    [(("tesis:hola mundo").toList)] [(("tesis:hola mundo").toList)]
    (List.Perm.refl _) (by decide) (by decide)

/-- C2: every execution of `procesar_tarea`, on every input and under
every evaluator behaviour (success, evaluation failure, unexpected
fault), performs exactly one semaphore acquisition and exactly one
release, and the release is the last event — so the admitted count is
left unchanged on completion. -/
theorem c2_semaforo_emparejado (eInt eDer : Str → ResultadoEval) (bd : DB)
    (tarea : Str) :
    cuenta Evento.adquiere (procesar_tarea eInt eDer bd tarea).2 = 1 ∧
    cuenta Evento.libera (procesar_tarea eInt eDer bd tarea).2 = 1 ∧
    ∃ pre, (procesar_tarea eInt eDer bd tarea).2 = pre ++ [Evento.libera] := by
  have h0 := evs_cuerpo eInt eDer bd tarea
  cases hc : cuerpo eInt eDer bd tarea with
  | normal bd2 evs =>
    rw [hc] at h0
    simp only [evsDe] at h0
    refine ⟨?_, ?_, ?_⟩
    · simp [procesar_tarea, hc, cuenta, cuenta_append, h0.1]
    · simp [procesar_tarea, hc, cuenta, cuenta_append, h0.2.1]
    · refine ⟨Evento.adquiere :: Evento.cronometro :: (evs ++ [Evento.logFin]), ?_⟩
      simp [procesar_tarea, hc]
  | lanza bd2 evs m =>
    rw [hc] at h0
    simp only [evsDe] at h0
    refine ⟨?_, ?_, ?_⟩
    · simp [procesar_tarea, hc, cuenta, cuenta_append, h0.1]
    · simp [procesar_tarea, hc, cuenta, cuenta_append, h0.2.1]
    · refine ⟨Evento.adquiere :: Evento.cronometro ::
        (evs ++ [Evento.logErr, Evento.logFin]), ?_⟩
      simp [procesar_tarea, hc]

/-- C3: whenever the `try:` body of `procesar_tarea` raises (evaluator
rejection or any other fault), the runner catches it and returns
normally with a logged error outcome — the exception never reaches the
caller, and the release still happens. -/
theorem c3_errores_capturados (eInt eDer : Str → ResultadoEval) (bd bd2 : DB)
    (tarea : Str) (evs : List Evento) (m : Str)
    (h : cuerpo eInt eDer bd tarea = Cuerpo.lanza bd2 evs m) :
    procesar_tarea eInt eDer bd tarea =
      (bd2, Evento.adquiere :: Evento.cronometro :: evs ++
        [Evento.logErr, Evento.logFin, Evento.libera]) := by
  simp [procesar_tarea, h]

/-- Witness for C3: an always-raising evaluator on an integral task is
caught and converted into a logged error outcome. -/
theorem c3_errores_capturados_testigo :
    procesar_tarea evalFallaSiempre evalEco dbVacia (("integral:x").toList) =
      (dbVacia, Evento.adquiere :: Evento.cronometro :: [] ++
        [Evento.logErr, Evento.logFin, Evento.libera]) :=
  c3_errores_capturados evalFallaSiempre evalEco dbVacia dbVacia
    (("integral:x").toList) [] (("boom").toList) (by decide)

/-- C4: an unrecognized task, or an integral/derivative task whose
expression the evaluator rejects, leaves all four storage resources
unchanged: no ledger line is appended and the counter content is not
modified. -/
theorem c4_sin_efectos (eInt eDer : Str → ResultadoEval) (bd : DB) (tarea : Str)
    (h : (startswith pIntegral tarea = false ∧ startswith pDerivada tarea = false ∧
          startswith pTesis tarea = false) ∨
         (startswith pIntegral tarea = true ∧
          ∃ m, eInt (exprIntegral tarea) = ResultadoEval.falla m) ∨
         (startswith pDerivada tarea = true ∧
          ∃ m, eDer (exprDerivada tarea) = ResultadoEval.falla m)) :
    (procesar_tarea eInt eDer bd tarea).1 = bd := by
  rcases h with ⟨h1, h2, h3⟩ | ⟨h1, m, hm⟩ | ⟨h1, m, hm⟩
  · simp [procesar_tarea, cuerpo, h1, h2, h3]
  · simp [procesar_tarea, cuerpo, h1, hm]
  · have h0 : startswith pIntegral tarea = false :=
      @exclusion_startswith pDerivada pIntegral tarea ('d') ('i') rfl rfl
        (by decide) h1
    simp [procesar_tarea, cuerpo, h0, h1, hm]

/-- Witness for C4: a prefix-less task leaves the fresh store
untouched. -/
theorem c4_sin_efectos_testigo :
    (procesar_tarea evalEco evalEco dbVacia (("hola").toList)).1 = dbVacia :=
  c4_sin_efectos evalEco evalEco dbVacia (("hola").toList)
    (Or.inl ⟨by decide, by decide, by decide⟩)

/-- C5 counterexample: classification as implemented is case-sensitive,
does not strip surrounding whitespace, does not accept the English
prefixes `derivative:`/`thesis:`, and obtains the integral/derivative
payload by deleting every occurrence of the prefix text, not only the
leading one — each conjunct contradicts the claim at a concrete
input. -/
theorem c5_clasificacion_contraejemplo :
    (clasificar (("derivative:x").toList)).1 = Categoria.noReconocida ∧
    (clasificar (("Integral:x").toList)).1 = Categoria.noReconocida ∧
    (clasificar ((" integral:x").toList)).1 = Categoria.noReconocida ∧
    (clasificar (("integral:1+integral:2").toList)).2 = (("1+2").toList) ∧
    (("1+2").toList) ≠ (("1+integral:2").toList) :=
  ⟨by decide, by decide, by decide, by decide, by decide⟩

/-- C5 amended: classification inspects the raw string without
stripping, recognizes exactly the lowercase prefixes `integral:`,
`derivada:` and `tesis:` in that order; the integral/derivative payload
is the raw string with every occurrence of the prefix deleted and then
stripped, the thesis payload is the remainder after the leading
6-character prefix, and anything else is unrecognized with the raw
string as payload. -/
theorem c5_clasificacion_corregida (tarea : Str) :
    (startswith pIntegral tarea = true →
      clasificar tarea = (Categoria.integral, strip (removeAll pIntegral tarea))) ∧
    (startswith pIntegral tarea = false → startswith pDerivada tarea = true →
      clasificar tarea = (Categoria.derivada, strip (removeAll pDerivada tarea))) ∧
    (startswith pIntegral tarea = false → startswith pDerivada tarea = false →
      startswith pTesis tarea = true →
      clasificar tarea = (Categoria.tesis, List.drop 6 tarea)) ∧
    (startswith pIntegral tarea = false → startswith pDerivada tarea = false →
      startswith pTesis tarea = false →
      clasificar tarea = (Categoria.noReconocida, tarea)) := by
  refine ⟨?_, ?_, ?_, ?_⟩
  · intro h
    simp [clasificar, h, exprIntegral]
  · intro h1 h2
    simp [clasificar, h1, h2, exprDerivada]
  · intro h1 h2 h3
    have hsp := splitFirst_startswith h3
    have hlen : pTesis.length = 6 := rfl
    rw [hlen] at hsp
    simp [clasificar, h1, h2, h3, hsp]
  · intro h1 h2 h3
    simp [clasificar, h1, h2, h3]

/-- Witness for C5 amended: a thesis task keeps everything after the
leading prefix, later prefix occurrences included. -/
theorem c5_clasificacion_corregida_testigo :
    clasificar (("tesis:a tesis:b").toList) =
      (Categoria.tesis, (("a tesis:b").toList)) := by
  have h := c5_clasificacion_corregida (("tesis:a tesis:b").toList)
  exact h.2.2.1 (by decide) (by decide) (by decide)

/-- C6: a thesis task splits its remainder at the first `;` into a
stripped title and body (default title `Sin titulo` when no separator),
appends exactly the line `Tesis: <title> -- <body>` to the thesis
ledger, and increments the counter by the word count of the body alone. -/
theorem c6_tesis_titulo_cuerpo (eInt eDer : Str → ResultadoEval) (bd : DB)
    (tarea : Str) (h : startswith pTesis tarea = true) :
    ((procesar_tarea eInt eDer bd tarea).1.tesis =
      bd.tesis ++ [(("Tesis: ").toList) ++ (tituloTexto (List.drop 6 tarea)).1 ++
        ((" -- ").toList) ++ (tituloTexto (List.drop 6 tarea)).2]) ∧
    leerLargo (procesar_tarea eInt eDer bd tarea).1.largo =
      leerLargo bd.largo + wordCount (tituloTexto (List.drop 6 tarea)).2 ∧
    (splitFirst sepPuntoComa (List.drop 6 tarea) = none →
      tituloTexto (List.drop 6 tarea) = (sinTitulo, strip (List.drop 6 tarea))) ∧
    (∀ a b, splitFirst sepPuntoComa (List.drop 6 tarea) = some (a, b) →
      tituloTexto (List.drop 6 tarea) = (strip a, strip b)) := by
  obtain ⟨-, -, h3, h4⟩ := paso eInt eDer bd tarea
  refine ⟨?_, ?_, ?_, ?_⟩
  · rw [h3]
    simp [esTesis, h, lineaTesisDe, lineaTesisStr]
  · rw [h4]
    simp [esTesis, h, leerLargo_actualizar, palabrasDeTesis]
  · intro hn
    simp [tituloTexto, hn]
  · intro a b hs
    simp [tituloTexto, hs]

/-- Witness for C6: the spec's concrete scenario
`tesis: T1; hola mundo prueba` appends `Tesis: T1 -- hola mundo prueba`
and adds 3 to the counter. -/
theorem c6_tesis_titulo_cuerpo_testigo :
    (procesar_tarea evalEco evalEco dbVacia
        (("tesis: T1; hola mundo prueba").toList)).1.tesis =
      [(("Tesis: T1 -- hola mundo prueba").toList)] ∧
    leerLargo (procesar_tarea evalEco evalEco dbVacia
        (("tesis: T1; hola mundo prueba").toList)).1.largo = 3 := by
  have h := c6_tesis_titulo_cuerpo evalEco evalEco dbVacia
    (("tesis: T1; hola mundo prueba").toList) (by decide)
  constructor
  · rw [h.1]
    decide
  · rw [h.2.1]
    decide

/-- C7 counterexample: the stored string `-5` denotes the decimal
integer −5, but the code's read (`isdigit` then `int`) yields 0, so
"for every stored string denoting a decimal integer the value read
equals that integer" fails for negative integers. -/
theorem c7_contador_contraejemplo :
    valorDecimalSpec (("-5").toList) = some (-5) ∧
    leerLargo (some (("-5").toList)) = 0 ∧
    ((-5 : Int) ≠ (0 : Int)) :=
  ⟨by decide, by decide, by decide⟩

/-- C7 amended: the counter read treats absent or non-digit content as
zero, and on every stored string that (after stripping surrounding
whitespace) denotes a nonnegative decimal integer — per the spec-side
denotation `valorDecimalSpec`, so non-canonical forms such as `"007"`
or `"  42 "` included — the value read equals that integer;
`crear_archivos` never truncates an existing counter file (it only
creates missing files empty), so persisting `X`, restarting, and adding
`Y` yields `X + Y`. -/
theorem c7_contador_reinicio (X Y : Nat) (s : Str) :
    leerLargo none = 0 ∧
    leerLargo (some (natToStr X)) = X ∧
    crearArchivoSiFalta (some s) = some s ∧
    crearArchivoSiFalta none = some [] ∧
    (esNumerica (strip s) = false → leerLargo (some s) = 0) ∧
    leerLargo (actualizarLargo (crearArchivoSiFalta (some (natToStr X))) Y) =
      X + Y ∧
    (∀ n : Nat, valorDecimalSpec (strip s) = some ((n : Int)) →
      leerLargo (some s) = n) := by
  refine ⟨rfl, leerLargo_natToStr X, rfl, rfl, ?_, ?_, ?_⟩
  · intro h
    simp [leerLargo, h]
  · simp [crearArchivoSiFalta, leerLargo_actualizar, leerLargo_natToStr]
  · intro n hn
    show (if esNumerica (strip s) then valorNat (strip s) else 0) = n
    cases hst : strip s with
    | nil =>
      rw [hst] at hn
      simp [valorDecimalSpec] at hn
    | cons c ds =>
      rw [hst] at hn
      simp only [valorDecimalSpec] at hn
      by_cases hc : c = ('-')
      · rw [if_pos hc] at hn
        by_cases hnum : esNumerica ds = true
        · rw [if_pos hnum, Option.some.injEq] at hn
          have hn0 : n = 0 := by omega
          have hdig : esDigito c = false := by
            rw [hc]
            decide
          have hfalse : esNumerica (c :: ds) = false := by
            simp [esNumerica, List.all_cons, hdig]
          rw [hfalse]
          simp [hn0]
        · rw [if_neg hnum] at hn
          exact absurd hn (by simp)
      · rw [if_neg hc] at hn
        by_cases hnum : esNumerica (c :: ds) = true
        · rw [if_pos hnum, Option.some.injEq] at hn
          have hval : valorNat (c :: ds) = n := by exact_mod_cast hn
          rw [hnum]
          simp [hval]
        · rw [if_neg hnum] at hn
          exact absurd hn (by simp)

/-- Witness for C7 amended: persist 7, restart, add 5, read 12; garbage
content reads as zero; the non-canonical digit string `"  007 "`
denotes 7 and reads as 7. -/
theorem c7_contador_reinicio_testigo :
    leerLargo (actualizarLargo (crearArchivoSiFalta (some (natToStr 7))) 5) =
      7 + 5 ∧
    leerLargo (some (("abc").toList)) = 0 ∧
    leerLargo (some (("  007 ").toList)) = 7 := by
  have h := c7_contador_reinicio 7 5 (("abc").toList)
  have h2 := c7_contador_reinicio 7 5 (("  007 ").toList)
  exact ⟨h.2.2.2.2.2.1, h.2.2.2.2.1 (by decide),
    h2.2.2.2.2.2.2 7 (by decide)⟩

/-- C8: after a batch completes in any completion order, each category
ledger has gained exactly the formatted lines of the successfully
evaluated tasks of that category — counts `p`, `d` and `t` — and
nothing else; failed and unrecognized tasks contribute no entries. -/
theorem c8_libros_completos (eInt eDer : Str → ResultadoEval) (maxHilos : Nat)
    (bd : DB) (tareas orden : List Str) (hperm : tareas.Perm orden) :
    ((procesar_tareas eInt eDer maxHilos bd orden).integrales =
      bd.integrales ++
        (orden.filter (esExitoInt eInt)).map (lineaIntegralDe eInt)) ∧
    ((procesar_tareas eInt eDer maxHilos bd orden).integrales.length =
      bd.integrales.length + tareas.countP (esExitoInt eInt)) ∧
    ((procesar_tareas eInt eDer maxHilos bd orden).derivadas =
      bd.derivadas ++
        (orden.filter (esExitoDer eDer)).map (lineaDerivadaDe eDer)) ∧
    ((procesar_tareas eInt eDer maxHilos bd orden).derivadas.length =
      bd.derivadas.length + tareas.countP (esExitoDer eDer)) ∧
    ((procesar_tareas eInt eDer maxHilos bd orden).tesis =
      bd.tesis ++ (orden.filter esTesis).map lineaTesisDe) ∧
    ((procesar_tareas eInt eDer maxHilos bd orden).tesis.length =
      bd.tesis.length + tareas.countP esTesis) := by
  obtain ⟨h1, h2, h3, -⟩ := lote eInt eDer orden bd
  have e1 : (procesar_tareas eInt eDer maxHilos bd orden).integrales =
      bd.integrales ++
        (orden.filter (esExitoInt eInt)).map (lineaIntegralDe eInt) := h1
  have e2 : (procesar_tareas eInt eDer maxHilos bd orden).derivadas =
      bd.derivadas ++
        (orden.filter (esExitoDer eDer)).map (lineaDerivadaDe eDer) := h2
  have e3 : (procesar_tareas eInt eDer maxHilos bd orden).tesis =
      bd.tesis ++ (orden.filter esTesis).map lineaTesisDe := h3
  refine ⟨e1, ?_, e2, ?_, e3, ?_⟩
  · rw [e1, hperm.countP_eq]
    simp [List.countP_eq_length_filter]
  · rw [e2, hperm.countP_eq]
    simp [List.countP_eq_length_filter]
  · rw [e3, hperm.countP_eq]
    simp [List.countP_eq_length_filter]

/-- Witness for C8: a two-task batch (one valid integral, one
unrecognized) gains exactly one integral ledger line. -/
theorem c8_libros_completos_testigo :
    ((procesar_tareas evalEco evalEco 2 dbVacia
        [(("integral: x**2").toList), (("z").toList)]).integrales =
      dbVacia.integrales ++
        ([(("integral: x**2").toList), (("z").toList)].filter
          (esExitoInt evalEco)).map (lineaIntegralDe evalEco)) ∧
    ((procesar_tareas evalEco evalEco 2 dbVacia
        [(("integral: x**2").toList), (("z").toList)]).integrales.length =
      dbVacia.integrales.length +
        [(("integral: x**2").toList), (("z").toList)].countP
          (esExitoInt evalEco)) := by
  have h := c8_libros_completos evalEco evalEco 2 dbVacia
    [(("integral: x**2").toList), (("z").toList)]
    [(("integral: x**2").toList), (("z").toList)] (List.Perm.refl _)
  exact ⟨h.1, h.2.1⟩

/-- C9: every execution of `procesar_tarea`, whatever the outcome,
emits exactly one completion-log record, and the timer starts
immediately after the semaphore admits the task, so the elapsed time
excludes the wait for admission. -/
theorem c9_registro_unico (eInt eDer : Str → ResultadoEval) (bd : DB)
    (tarea : Str) :
    cuenta Evento.logFin (procesar_tarea eInt eDer bd tarea).2 = 1 ∧
    ∃ resto, (procesar_tarea eInt eDer bd tarea).2 =
      Evento.adquiere :: Evento.cronometro :: resto := by
  have h0 := evs_cuerpo eInt eDer bd tarea
  cases hc : cuerpo eInt eDer bd tarea with
  | normal bd2 evs =>
    rw [hc] at h0
    simp only [evsDe] at h0
    refine ⟨?_, ⟨evs ++ [Evento.logFin, Evento.libera], ?_⟩⟩
    · simp [procesar_tarea, hc, cuenta, cuenta_append, h0.2.2.1]
    · simp [procesar_tarea, hc]
  | lanza bd2 evs m =>
    rw [hc] at h0
    simp only [evsDe] at h0
    refine ⟨?_, ⟨evs ++ [Evento.logErr, Evento.logFin, Evento.libera], ?_⟩⟩
    · simp [procesar_tarea, hc, cuenta, cuenta_append, h0.2.2.1]
    · simp [procesar_tarea, hc]

/-- C10: every counter update writes the decimal representation of a
single nonnegative integer (digits only), the value written is the
coerced-to-zero-if-unreadable current value plus the word-count delta,
and the stored value never decreases across an update. -/
theorem c10_contador_no_decrece (o : Option Str) (w : Nat) :
    actualizarLargo o w = some (natToStr (leerLargo o + w)) ∧
    esNumerica (natToStr (leerLargo o + w)) = true ∧
    leerLargo (actualizarLargo o w) = leerLargo o + w ∧
    leerLargo o ≤ leerLargo (actualizarLargo o w) := by
  refine ⟨rfl, esNumerica_natToStr _, leerLargo_actualizar o w, ?_⟩
  rw [leerLargo_actualizar]
  omega

end ServidorConcurrente
